import Mathlib

/-!
Verification of the Framework Detection Engine of codex-context-forge.

The engine itself (`src/services/frameworkDetector.ts`) is not part of the
source tree available here; only its caller (`src/services/projectAnalyzer.ts`)
and its test suite (`src/__tests__/compose-multiplatform.test.ts`) are.
The engine's data model, scorer, variant resolver and ranking aggregator are
therefore modelled from the specification (spec.md, sections 3-4 and 7),
pinned to the behaviour the in-tree test suite asserts.  The parts of
`projectAnalyzer.ts` that are present (`readPackageJson`, `detectTechStack`,
`detectFrameworks`) are translated directly from that source file.
-/

/-- Modelled from the spec: the evidence bundle collected by the Evidence
Scanner (spec.md section 3) — files present, directories present, parsed
manifest fields, and which (file, pattern-id) content probes matched.
The engine source `frameworkDetector.ts` is missing from `src/`. -/
structure EvidenceBundle where
  filesPresent : List String
  dirsPresent : List String
  manifestFields : List (String × String)
  contentMatches : List (String × String)
  deriving DecidableEq

/-- Modelled from the spec: the four predicate shapes of the Signal Rules
Table (file exists, manifest dependency present, content pattern matches,
directory exists); spec.md section 2 item 2. -/
inductive Predicate where
  | fileExists (path : String)
  | manifestDep (key : String)
  | contentMatch (file : String) (patternId : String)
  | dirExists (path : String)
  deriving DecidableEq

/-- Modelled from the spec: predicates are pure boolean tests over an
`EvidenceBundle` (spec.md section 4.2). -/
def evalPredicate (b : EvidenceBundle) : Predicate → Bool
  | .fileExists p => decide (p ∈ b.filesPresent)
  | .manifestDep k => decide (k ∈ b.manifestFields.map Prod.fst)
  | .contentMatch f pid => decide ((f, pid) ∈ b.contentMatches)
  | .dirExists p => decide (p ∈ b.dirsPresent)

/-- Modelled from the spec: one weighted rule of a candidate, optionally
tagged "required" (spec.md section 3, `FrameworkCandidate.rules`). -/
structure Rule where
  pred : Predicate
  weight : Nat
  required : Bool
  deriving DecidableEq

/-- Modelled from the spec: one framework known to the Signal Rules Table
(spec.md section 3). -/
structure FrameworkCandidate where
  id : String
  rules : List Rule
  variants : List String := []
  deriving DecidableEq

/-- Modelled from the spec: the scorer's per-candidate output
(spec.md section 3, `ScoredCandidate`). -/
structure ScoredCandidate where
  candidateId : String
  score : Nat
  matchedRules : List Predicate
  deriving DecidableEq

/-- Clamp a value into the interval `[lo, hi]` (spec.md section 4.3 step 3). -/
def clamp (x lo hi : Nat) : Nat := max lo (min x hi)

/-- Sum of the weights of a list of rules. -/
def sumWeights (rs : List Rule) : Nat := (rs.map Rule.weight).sum

/-- Modelled from the spec: all rules tagged "required" hold on the bundle
(spec.md section 4.3 step 2). -/
def requiredOk (b : EvidenceBundle) (c : FrameworkCandidate) : Bool :=
  c.rules.all (fun r => !r.required || evalPredicate b r.pred)

/-- Modelled from the spec: the Scorer (spec.md section 4.3).  If any
"required" predicate fails the candidate is disqualified outright
(score 0, no matched rules); otherwise the score is the clamped sum of the
weights of the matched predicates, and the matched predicates are recorded. -/
def scoreCandidate (b : EvidenceBundle) (c : FrameworkCandidate) : ScoredCandidate :=
  if requiredOk b c then
    let matched := c.rules.filter (fun r => evalPredicate b r.pred)
    { candidateId := c.id
      score := clamp (sumWeights matched) 0 100
      matchedRules := matched.map Rule.pred }
  else
    { candidateId := c.id, score := 0, matchedRules := [] }

/-- Modelled from the spec: descending-score order used by the Ranking and
Aggregator component (spec.md section 4.5). -/
def scoreGe (a b : ScoredCandidate) : Prop := b.score ≤ a.score

instance : DecidableRel scoreGe := fun a b => Nat.decLe b.score a.score

instance : IsTotal ScoredCandidate scoreGe :=
  ⟨fun a b => (Nat.le_total b.score a.score).imp id id⟩

instance : IsTrans ScoredCandidate scoreGe :=
  ⟨fun _ _ _ hab hbc => Nat.le_trans hbc hab⟩

/-- Modelled from the spec: the minimum acceptance threshold for a primary
result (spec.md sections 3 and 4.5: 50). -/
def minAcceptanceThreshold : Nat := 50

/-- Modelled from the spec: the detection result returned to callers
(spec.md section 3, `DetectionResult`). -/
structure DetectionResult where
  primary : Option ScoredCandidate
  allDetected : List ScoredCandidate
  deriving DecidableEq

/-- Modelled from the spec: filter out score-0 candidates, then sort the
rest descending by score with a stable tie-break preserving the incoming
(declaration) order (spec.md section 4.5).  Insertion sort with the
reflexive descending relation is stable. -/
def rankSorted (scored : List ScoredCandidate) : List ScoredCandidate :=
  (scored.filter (fun c => c.score != 0)).insertionSort scoreGe

/-- Modelled from the spec: the Ranking and Aggregator (spec.md section 4.5).
`primary` is the top candidate when its score reaches the acceptance
threshold, else absent; `allDetected` is the full sorted, filtered list. -/
def aggregate (scored : List ScoredCandidate) : DetectionResult :=
  { primary :=
      match (rankSorted scored).head? with
      | none => none
      | some top => if minAcceptanceThreshold ≤ top.score then some top else none
    allDetected := rankSorted scored }

/-- Score of the best-scoring candidate of a list (0 when the list is empty). -/
def topScore (l : List ScoredCandidate) : Nat :=
  (l.map ScoredCandidate.score).foldr max 0

/-- Modelled from the spec: one evidence signal per known target family of a
multi-target build (spec.md section 4.4 step 1: mobile-target,
desktop-target, web-target, wasm-target). -/
structure TargetSignals where
  mobile : Bool
  desktop : Bool
  web : Bool
  wasm : Bool
  deriving DecidableEq

/-- Modelled from the spec: the Variant Resolver's platform decision table
(spec.md section 4.4 step 2) with its documented tie-break — mobile-focused
takes priority whenever mobile-target evidence is present.  The priority is
pinned by the in-tree test
(src/src/__tests__/compose-multiplatform.test.ts, "should detect
multiplatform variants correctly"), which declares targets in all families
(android, ios, desktop, js, wasmJs) and expects variant "mobile-focused"
("Detection logic prioritizes mobile"); the full-multiplatform row, which
requires all four families and hence mobile, is therefore preempted by the
mobile row and never selected. -/
def resolveVariant (t : TargetSignals) : Option String :=
  if t.mobile then some "mobile-focused"
  else if t.web || t.wasm then some "web-enabled"
  else if t.desktop then some "desktop-only"
  else none

/-- Modelled from the spec: outcome of attempting to read and parse one
manifest file (spec.md section 4.1: a missing or malformed manifest is
non-fatal). -/
inductive ManifestOutcome where
  | missing
  | malformed
  | parsed (fields : List (String × String))
  deriving DecidableEq

/-- Modelled from the spec: a fixed snapshot of the scanned directory —
the input the Evidence Scanner reads (spec.md section 4.1). -/
structure DirSnapshot where
  rootReadable : Bool
  files : List String
  dirs : List String
  manifest : ManifestOutcome
  contentMatches : List (String × String)
  deriving DecidableEq

/-- Modelled from the spec: a missing or malformed manifest yields an empty
`manifestFields` map, never an error (spec.md section 4.1). -/
def manifestFieldsOf : ManifestOutcome → List (String × String)
  | .parsed fields => fields
  | .missing => []
  | .malformed => []

/-- Modelled from the spec: the Evidence Scanner builds the bundle from the
directory snapshot (spec.md section 4.1); reads only, no writes. -/
def scanEvidence (s : DirSnapshot) : EvidenceBundle :=
  { filesPresent := s.files
    dirsPresent := s.dirs
    manifestFields := manifestFieldsOf s.manifest
    contentMatches := s.contentMatches }

/-- Modelled from the spec: evidence collection as an explicit state-passing
step — the scanner performs filesystem reads only, so it returns the
snapshot unchanged alongside the bundle (spec.md sections 3 and 5). -/
def scanEvidenceSt (s : DirSnapshot) : DirSnapshot × EvidenceBundle :=
  (s, scanEvidence s)

/-- Modelled from the spec: the single operation the core exposes
(spec.md section 6).  An unreadable root path is the one fatal error
(spec.md section 7); otherwise every candidate is scored against the
bundle and the results aggregated. -/
def detect (cands : List FrameworkCandidate) (s : DirSnapshot) :
    Except String DetectionResult :=
  if s.rootReadable then
    Except.ok (aggregate (cands.map (scoreCandidate (scanEvidence s))))
  else
    Except.error "unreadable root path"

/-- Whether an `Except`-valued detection call succeeded. -/
def isOkResult (e : Except String DetectionResult) : Bool :=
  match e with
  | .ok _ => true
  | .error _ => false

/-- Extend a bundle with one new file together with the content-pattern ids
that match inside it (spec.md section 8, monotonicity property). -/
def addFile (b : EvidenceBundle) (f : String) (pats : List String) : EvidenceBundle :=
  { b with
    filesPresent := f :: b.filesPresent
    contentMatches := pats.map (fun pid => (f, pid)) ++ b.contentMatches }

/-- Whether a predicate is evidence drawn from the given file (a
file-existence probe on it or a content probe inside it). -/
def fileEvidence (f : String) : Predicate → Bool
  | .fileExists g => g == f
  | .contentMatch g _ => g == f
  | .manifestDep _ => false
  | .dirExists _ => false

/-- Dependency map of a `package.json`, as the two key lists that
`projectAnalyzer.ts` spreads into one object (dependency names only;
versions are never inspected). -/
structure PackageJson where
  dependencies : List String
  devDependencies : List String
  deriving DecidableEq

/-- First-occurrence deduplication, the semantics of the
`[...new Set(list)]` idiom used at the end of `detectTechStack` and
`detectFrameworks` (src/src/services/projectAnalyzer.ts lines 309, 414). -/
def jsSetDedup (l : List String) : List String :=
  l.foldl (fun acc x => if x ∈ acc then acc else acc ++ [x]) []

/-- Keys of the merged `{...dependencies, ...devDependencies}` object
(JavaScript object keys are unique, insertion-ordered). -/
def depKeys (p : PackageJson) : List String :=
  jsSetDedup (p.dependencies ++ p.devDependencies)

/-- Presence of a dependency key in the merged dependency object. -/
def hasDep (p : PackageJson) (k : String) : Bool := decide (k ∈ depKeys p)

/-- One entry of `FrameworkDetectionResult.allDetected` as consumed by
`projectAnalyzer.ts` (fields `framework`, `variant`, `confidence`,
`platforms`). -/
structure DetectedFramework where
  framework : String
  variant : Option String := none
  confidence : Nat := 0
  platforms : Option (List String) := none
  deriving DecidableEq

/-- The detector result shape consumed by `projectAnalyzer.ts`. -/
structure FrameworkDetectionResult where
  primary : Option DetectedFramework := none
  allDetected : List DetectedFramework := []
  deriving DecidableEq

/-- Append `x` when `c` holds — the `if (c) list.push(x)` statement form. -/
def pushIf (c : Bool) (x : String) (s : List String) : List String :=
  if c then s ++ [x] else s

/-- `path.basename`: the part after the last slash. -/
def basenameOf (p : String) : String := (p.splitOn "/").getLastD ""

/-- `path.extname`: the extension of the basename including the dot; empty
for names without a dot and for dotfiles such as `.bashrc`. -/
def extnameOf (p : String) : String :=
  match (basenameOf p).splitOn "." with
  | [] => ""
  | [_] => ""
  | first :: rest =>
    if first == "" && rest.length == 1 then "" else "." ++ rest.getLastD ""

/-- `String.prototype.includes`: substring containment. -/
def containsSub (s pat : String) : Bool := (s.splitOn pat).length != 1

/-- Translated from `ProjectAnalyzer.detectTechStack`
(src/src/services/projectAnalyzer.ts lines 220-267): the tech-stack entries
pushed for one detected framework by the `switch (detected.framework)`
statement. -/
def techStackEntriesFor (d : DetectedFramework) : List String :=
  match d.framework with
  | "compose-multiplatform" =>
    ["Kotlin Multiplatform", "Jetpack Compose"] ++
      (match d.variant with
       | some "mobile-focused" => ["Android", "iOS"]
       | some "full-multiplatform" => ["Android", "iOS", "Desktop", "Web"]
       | some "web-enabled" => ["Web Assembly", "JavaScript"]
       | some "desktop-only" => ["Desktop"]
       | _ => [])
  | "spring-boot" => ["Spring Boot", "Java"]
  | "react" => if d.variant == some "next.js" then ["Next.js", "React"] else ["React"]
  | "vue" => if d.variant == some "nuxt" then ["Nuxt.js", "Vue.js"] else ["Vue.js"]
  | fw => [fw.capitalize]

/-- Translated from `ProjectAnalyzer.detectTechStack`
(src/src/services/projectAnalyzer.ts lines 213-308): the accumulation of
tech-stack entries before the final `[...new Set(...)]` deduplication. -/
def detectTechStackRaw (files : List String) (packageJson : Option PackageJson)
    (fd : Option FrameworkDetectionResult) : List String :=
  let stack : List String :=
    match fd with
    | some r => (r.allDetected.map techStackEntriesFor).flatten
    | none => []
  let stack :=
    match packageJson with
    | none => stack
    | some pj =>
      let stack :=
        if hasDep pj "next" && !(stack.contains "Next.js") then stack ++ ["Next.js"]
        else if hasDep pj "react" && !(stack.contains "React") then stack ++ ["React"]
        else stack
      let stack := pushIf (hasDep pj "vue" && !(stack.contains "Vue.js")) "Vue.js" stack
      let stack :=
        pushIf (hasDep pj "@angular/core" && !(stack.contains "Angular")) "Angular" stack
      let stack := pushIf (hasDep pj "express") "Express.js" stack
      let stack := pushIf (hasDep pj "fastify") "Fastify" stack
      let stack := pushIf (hasDep pj "mongoose" || hasDep pj "mongodb") "MongoDB" stack
      let stack := pushIf (hasDep pj "pg" || hasDep pj "postgres") "PostgreSQL" stack
      let stack := pushIf (hasDep pj "mysql2" || hasDep pj "mysql") "MySQL" stack
      let stack := pushIf (hasDep pj "sqlite3") "SQLite" stack
      let stack := pushIf (hasDep pj "typescript") "TypeScript" stack
      let stack := pushIf (hasDep pj "tailwindcss") "Tailwind CSS" stack
      pushIf (hasDep pj "prisma") "Prisma" stack
  let extensions := files.map extnameOf
  let filenames := files.map basenameOf
  let stack := pushIf (extensions.contains ".py" &&
      !(stack.any (fun s => containsSub s.toLower "python"))) "Python" stack
  let stack := pushIf (extensions.contains ".rs") "Rust" stack
  let stack := pushIf (extensions.contains ".go") "Go" stack
  let stack :=
    pushIf (extensions.contains ".kt" && !(stack.contains "Kotlin Multiplatform")) "Kotlin" stack
  let stack := pushIf (filenames.contains "Dockerfile") "Docker" stack
  pushIf (filenames.contains "docker-compose.yml") "Docker Compose" stack

/-- Translated from `ProjectAnalyzer.detectTechStack`
(src/src/services/projectAnalyzer.ts line 309): the returned list is
`[...new Set(stack)]`. -/
def detectTechStack (files : List String) (packageJson : Option PackageJson)
    (fd : Option FrameworkDetectionResult) : List String :=
  jsSetDedup (detectTechStackRaw files packageJson fd)

/-- Translated from `ProjectAnalyzer.detectFrameworks`
(src/src/services/projectAnalyzer.ts lines 365-396): the display name pushed
for one detected framework. -/
def displayNameFor (d : DetectedFramework) : String :=
  match d.framework with
  | "compose-multiplatform" => "Compose Multiplatform"
  | "spring-boot" => "Spring Boot"
  | "react" => if d.variant == some "next.js" then "Next.js" else "React"
  | "vue" => if d.variant == some "nuxt" then "Nuxt.js" else "Vue.js"
  | "nestjs" => "NestJS"
  | "fastapi" => "FastAPI"
  | "rails" => "Ruby on Rails"
  | fw => fw.capitalize

/-- Translated from `ProjectAnalyzer.detectFrameworks`
(src/src/services/projectAnalyzer.ts lines 356-412): detector display names
first, then the legacy `Object.keys(deps)` fallback loop, before the final
deduplication.  The `files` parameter is unused in the source body too. -/
def detectFrameworksRaw (_files : List String) (packageJson : Option PackageJson)
    (fd : Option FrameworkDetectionResult) : List String :=
  let frameworks : List String :=
    match fd with
    | some r => r.allDetected.map displayNameFor
    | none => []
  match packageJson with
  | none => frameworks
  | some pj =>
    (depKeys pj).foldl (fun fw dep =>
      let fw :=
        if dep.startsWith "@angular/" && !(fw.contains "Angular") then fw ++ ["Angular"]
        else fw
      let fw := if dep == "vue" && !(fw.contains "Vue.js") then fw ++ ["Vue.js"] else fw
      let fw := if dep == "react" && !(fw.contains "React") then fw ++ ["React"] else fw
      if dep == "next" && !(fw.contains "Next.js") then fw ++ ["Next.js"] else fw) frameworks

/-- Translated from `ProjectAnalyzer.detectFrameworks`
(src/src/services/projectAnalyzer.ts line 414): the returned list is
`[...new Set(frameworks)]`. -/
def detectFrameworks (files : List String) (packageJson : Option PackageJson)
    (fd : Option FrameworkDetectionResult) : List String :=
  jsSetDedup (detectFrameworksRaw files packageJson fd)

/-- Translated from `ProjectAnalyzer.readPackageJson`
(src/src/services/projectAnalyzer.ts lines 133-143): the existence check and
the `fs.readJson` call sit inside a try/catch whose handler is empty, so a
missing `package.json` or a parse failure yields `null` (here `none`),
never a thrown error.  The outcome of the `fs.readJson` call is passed in
as an `Except` value. -/
def readPackageJson (pathExists : Bool) (readJson : Except String PackageJson) :
    Option PackageJson :=
  if pathExists then
    match readJson with
    | .ok j => some j
    | .error _ => none
  else none

/-- C1: if any rule tagged "required" in the candidate's rule list fails
against the bundle, the Scorer returns score 0 and an empty matched-rule
list, regardless of the other (optional) predicates. -/
theorem scoreCandidate_required_fail (b : EvidenceBundle) (c : FrameworkCandidate)
    (h : ∃ r ∈ c.rules, r.required = true ∧ evalPredicate b r.pred = false) :
    (scoreCandidate b c).score = 0 ∧ (scoreCandidate b c).matchedRules = [] := by
  obtain ⟨r, hmem, hreq, heval⟩ := h
  have hnot : requiredOk b c = false := by
    apply Bool.eq_false_iff.mpr
    intro hall
    have := List.all_eq_true.mp hall r hmem
    rw [hreq, heval] at this
    simp at this
  rw [scoreCandidate, hnot]
  simp

/-- Witness for C1: a candidate whose required file-existence rule fails on a
bundle that still satisfies its optional manifest rule is scored 0 with no
matched rules. -/
theorem scoreCandidate_required_fail_witness :
    (∃ r ∈ (FrameworkCandidate.mk "react"
        [Rule.mk (Predicate.fileExists "package.json") 30 true,
         Rule.mk (Predicate.manifestDep "react") 40 false] []).rules,
        r.required = true ∧
        evalPredicate (EvidenceBundle.mk [] [] [("react", "18.0.0")] []) r.pred = false) ∧
    (scoreCandidate (EvidenceBundle.mk [] [] [("react", "18.0.0")] [])
        (FrameworkCandidate.mk "react"
          [Rule.mk (Predicate.fileExists "package.json") 30 true,
           Rule.mk (Predicate.manifestDep "react") 40 false] [])).score = 0 := by
  refine ⟨by decide, ?_⟩
  exact (scoreCandidate_required_fail
    (EvidenceBundle.mk [] [] [("react", "18.0.0")] [])
    (FrameworkCandidate.mk "react"
      [Rule.mk (Predicate.fileExists "package.json") 30 true,
       Rule.mk (Predicate.manifestDep "react") 40 false] [])
    (by decide)).1

/-- C2: when every required rule holds, the score is the clamp into
`[0, 100]` of the sum of the weights of the matched rules; and in all cases
the score lies in the interval `[0, 100]`. -/
theorem scoreCandidate_clamped (b : EvidenceBundle) (c : FrameworkCandidate) :
    ((∀ r ∈ c.rules, r.required = true → evalPredicate b r.pred = true) →
      (scoreCandidate b c).score =
        clamp (sumWeights (c.rules.filter (fun r => evalPredicate b r.pred))) 0 100) ∧
    0 ≤ (scoreCandidate b c).score ∧ (scoreCandidate b c).score ≤ 100 := by
  refine ⟨?_, Nat.zero_le _, ?_⟩
  · intro h
    have hok : requiredOk b c = true := by
      apply List.all_eq_true.mpr
      intro r hmem
      by_cases hreq : r.required = true
      · rw [hreq, h r hmem hreq]; rfl
      · rw [Bool.eq_false_iff.mpr hreq]; rfl
    rw [scoreCandidate, hok]
    simp
  · rw [scoreCandidate]
    by_cases hok : requiredOk b c = true
    · rw [hok]
      simp only [if_true]
      calc clamp (sumWeights (c.rules.filter (fun r => evalPredicate b r.pred))) 0 100
          = min (sumWeights (c.rules.filter (fun r => evalPredicate b r.pred))) 100 := by
            rw [clamp, Nat.zero_max]
        _ ≤ 100 := Nat.min_le_right _ _
    · rw [Bool.eq_false_iff.mpr hok]
      simp

/-- Witness for C2: a candidate whose required rule holds gets the clamped
weight sum (here 70), which lies in `[0, 100]`. -/
theorem scoreCandidate_clamped_witness :
    (∀ r ∈ (FrameworkCandidate.mk "react"
        [Rule.mk (Predicate.fileExists "package.json") 30 true,
         Rule.mk (Predicate.manifestDep "react") 40 false] []).rules,
        r.required = true →
        evalPredicate
          (EvidenceBundle.mk ["package.json"] [] [("react", "18.0.0")] []) r.pred = true) ∧
    (scoreCandidate (EvidenceBundle.mk ["package.json"] [] [("react", "18.0.0")] [])
        (FrameworkCandidate.mk "react"
          [Rule.mk (Predicate.fileExists "package.json") 30 true,
           Rule.mk (Predicate.manifestDep "react") 40 false] [])).score =
      clamp (sumWeights ((FrameworkCandidate.mk "react"
          [Rule.mk (Predicate.fileExists "package.json") 30 true,
           Rule.mk (Predicate.manifestDep "react") 40 false] []).rules.filter
        (fun r => evalPredicate
          (EvidenceBundle.mk ["package.json"] [] [("react", "18.0.0")] []) r.pred))) 0 100 := by
  refine ⟨by decide, ?_⟩
  exact (scoreCandidate_clamped
    (EvidenceBundle.mk ["package.json"] [] [("react", "18.0.0")] [])
    (FrameworkCandidate.mk "react"
      [Rule.mk (Predicate.fileExists "package.json") 30 true,
       Rule.mk (Predicate.manifestDep "react") 40 false] [])).1 (by decide)

theorem le_topScore {l : List ScoredCandidate} {c : ScoredCandidate} (h : c ∈ l) :
    c.score ≤ topScore l := by
  induction l with
  | nil => cases h
  | cons x xs ih =>
    rcases List.mem_cons.mp h with rfl | hxs
    · simp [topScore]
    · simp only [topScore, List.map_cons, List.foldr_cons]
      exact Nat.le_trans (ih hxs) (Nat.le_max_right _ _)

theorem topScore_attained (l : List ScoredCandidate) :
    topScore l = 0 ∨ ∃ c ∈ l, c.score = topScore l := by
  induction l with
  | nil => exact Or.inl rfl
  | cons x xs ih =>
    have hx : topScore (x :: xs) = max x.score (topScore xs) := rfl
    rcases Nat.le_total x.score (topScore xs) with hle | hle
    · rcases ih with h0 | ⟨c, hc, hceq⟩
      · rw [h0] at hle
        have : x.score = 0 := Nat.le_zero.mp hle
        rw [hx, h0, this]
        exact Or.inl rfl
      · refine Or.inr ⟨c, List.mem_cons_of_mem _ hc, ?_⟩
        rw [hx, Nat.max_eq_right hle, hceq]
    · refine Or.inr ⟨x, List.mem_cons_self _ _, ?_⟩
      rw [hx, Nat.max_eq_left hle]

/-- C3: the primary result is present exactly when the top candidate's score
reaches the minimum acceptance threshold of 50. -/
theorem aggregate_primary_iff_threshold (l : List ScoredCandidate) :
    ((aggregate l).primary).isSome = true ↔ minAcceptanceThreshold ≤ topScore l := by
  have hperm : List.Perm (rankSorted l) (l.filter (fun c => c.score != 0)) :=
    List.perm_insertionSort scoreGe _
  cases hsort : rankSorted l with
  | nil =>
    have hnil : l.filter (fun c => c.score != 0) = [] := by
      rw [hsort] at hperm
      exact hperm.nil_eq.symm
    have hall : ∀ c ∈ l, c.score = 0 := by
      intro c hc
      have := List.filter_eq_nil_iff.mp hnil c hc
      simpa using this
    have htop : topScore l = 0 := by
      rcases topScore_attained l with h0 | ⟨c, hc, hceq⟩
      · exact h0
      · rw [← hceq]; exact hall c hc
    rw [htop]
    simp [aggregate, hsort, minAcceptanceThreshold]
  | cons t rest =>
    have htmem : t ∈ l.filter (fun c => c.score != 0) := by
      rw [hsort] at hperm
      exact hperm.mem_iff.mp (List.mem_cons_self _ _)
    have htl : t ∈ l := (List.mem_filter.mp htmem).1
    have hle : t.score ≤ topScore l := le_topScore htl
    have hge : topScore l ≤ t.score := by
      have htpos : t.score ≠ 0 := by
        have := (List.mem_filter.mp htmem).2
        simpa using this
      rcases topScore_attained l with h0 | ⟨m, hm, hmeq⟩
      · rw [h0]; exact Nat.zero_le _
      · have hmne : m.score ≠ 0 := by
          rw [hmeq]
          intro h0
          exact htpos (Nat.le_zero.mp (h0 ▸ hle))
        have hmf : m ∈ l.filter (fun c => c.score != 0) := by
          refine List.mem_filter.mpr ⟨hm, ?_⟩
          simpa using hmne
        have hms : m ∈ rankSorted l := by
          rw [hsort] at hperm
          rw [hsort]
          exact hperm.mem_iff.mpr hmf
        have hsorted : List.Sorted scoreGe (rankSorted l) :=
          List.sorted_insertionSort scoreGe _
        rw [hsort] at hms hsorted
        rcases List.mem_cons.mp hms with rfl | hmrest
        · rw [hmeq]
        · have := (List.sorted_cons.mp hsorted).1 m hmrest
          rw [← hmeq]
          exact this
    have hteq : t.score = topScore l := Nat.le_antisymm hle hge
    by_cases hth : minAcceptanceThreshold ≤ t.score
    · rw [← hteq]
      simp [aggregate, hsort, hth]
    · rw [← hteq]
      simp [aggregate, hsort, hth]

theorem filter_orderedInsert_score (x : ScoredCandidate) (s : Nat) :
    ∀ t : List ScoredCandidate,
      (t.orderedInsert scoreGe x).filter (fun c => c.score == s) =
        if x.score == s then x :: t.filter (fun c => c.score == s)
        else t.filter (fun c => c.score == s)
  | [] => by
    by_cases hx : x.score == s <;> simp [List.orderedInsert, List.filter, hx]
  | y :: ys => by
    rw [List.orderedInsert]
    by_cases hr : scoreGe x y
    · rw [if_pos hr]
      by_cases hx : x.score == s <;> simp [List.filter, hx]
    · rw [if_neg hr]
      have hlt : x.score < y.score := Nat.lt_of_not_le hr
      by_cases hx : x.score == s
      · have hxs : x.score = s := by simpa using hx
        have hy : (y.score == s) = false := by
          apply beq_eq_false_iff_ne.mpr
          intro hys
          rw [hys, ← hxs] at hlt
          exact Nat.lt_irrefl _ hlt
        rw [if_pos hx]
        simp only [List.filter_cons, hy, Bool.false_eq_true, if_false]
        rw [filter_orderedInsert_score x s ys, if_pos hx]
      · rw [if_neg hx]
        simp only [List.filter_cons]
        rw [filter_orderedInsert_score x s ys, if_neg hx]

theorem filter_insertionSort_score (s : Nat) :
    ∀ l : List ScoredCandidate,
      (l.insertionSort scoreGe).filter (fun c => c.score == s) =
        l.filter (fun c => c.score == s)
  | [] => rfl
  | x :: xs => by
    rw [List.insertionSort, filter_orderedInsert_score x s, List.filter_cons]
    by_cases hx : x.score == s
    · rw [if_pos hx, filter_insertionSort_score s xs]
      simp [hx]
    · rw [if_neg hx, filter_insertionSort_score s xs]
      simp [hx]

/-- C6: `allDetected` contains exactly the candidates with nonzero score
(as a permutation of the nonzero filter of the input), sorted descending by
score, and exact-score ties keep the relative order of the input list —
which is the fixed declaration order of the Signal Rules Table, frontend
candidates listed before backend ones. -/
theorem aggregate_allDetected_sorted (l : List ScoredCandidate) :
    List.Perm ((aggregate l).allDetected) (l.filter (fun c => c.score != 0)) ∧
    List.Sorted scoreGe ((aggregate l).allDetected) ∧
    ∀ s : Nat, ((aggregate l).allDetected).filter (fun c => c.score == s) =
      (l.filter (fun c => c.score != 0)).filter (fun c => c.score == s) := by
  refine ⟨List.perm_insertionSort scoreGe _, List.sorted_insertionSort scoreGe _, ?_⟩
  intro s
  exact filter_insertionSort_score s _


/-- C4: mobile-target plus web-target evidence without all target families
resolves to variant "mobile-focused", never "web-enabled" — the mobile row
takes priority over the web row. -/
theorem resolveVariant_mobile_over_web (t : TargetSignals)
    (hm : t.mobile = true) (hw : t.web = true)
    (hnall : ¬(t.desktop = true ∧ t.wasm = true)) :
    resolveVariant t = some "mobile-focused" ∧
    resolveVariant t ≠ some "web-enabled" := by
  constructor
  · simp [resolveVariant, hm]
  · simp [resolveVariant, hm]

/-- Witness for C4: android/ios plus web evidence, no desktop and no wasm. -/
theorem resolveVariant_mobile_over_web_witness :
    ((TargetSignals.mk true false true false).mobile = true ∧
     (TargetSignals.mk true false true false).web = true ∧
     ¬((TargetSignals.mk true false true false).desktop = true ∧
       (TargetSignals.mk true false true false).wasm = true)) ∧
    resolveVariant (TargetSignals.mk true false true false) = some "mobile-focused" := by
  refine ⟨⟨rfl, rfl, by decide⟩, ?_⟩
  exact (resolveVariant_mobile_over_web (TargetSignals.mk true false true false)
    rfl rfl (by decide)).1

/-- Counterexample to C5 as stated: evidence declaring targets in all four
families (mobile, desktop, web, wasm) resolves to "mobile-focused", not
"full-multiplatform" — exactly the behaviour the in-tree test asserts for a
build declaring android, ios, desktop, js and wasmJs targets. -/
theorem resolveVariant_all_families_not_full :
    resolveVariant (TargetSignals.mk true true true true) ≠ some "full-multiplatform" := by
  decide

/-- C5 (amended): for evidence declaring targets in all target families the
resolver selects variant "mobile-focused" — the documented mobile-priority
tie-break preempts the full-multiplatform row. -/
theorem resolveVariant_all_families_mobile (t : TargetSignals)
    (hm : t.mobile = true) (hd : t.desktop = true)
    (hw : t.web = true) (hwa : t.wasm = true) :
    resolveVariant t = some "mobile-focused" := by
  simp [resolveVariant, hm]

/-- Witness for the amended C5: all four families declared. -/
theorem resolveVariant_all_families_mobile_witness :
    ((TargetSignals.mk true true true true).mobile = true ∧
     (TargetSignals.mk true true true true).desktop = true ∧
     (TargetSignals.mk true true true true).web = true ∧
     (TargetSignals.mk true true true true).wasm = true) ∧
    resolveVariant (TargetSignals.mk true true true true) = some "mobile-focused" :=
  ⟨⟨rfl, rfl, rfl, rfl⟩,
   resolveVariant_all_families_mobile (TargetSignals.mk true true true true) rfl rfl rfl rfl⟩

/-- C7: a missing or malformed manifest never fails the detection call — it
yields an empty `manifestFields` map; the call succeeds exactly when the
root path is readable, and `readPackageJson` maps both a missing file and a
parse failure to `none` instead of propagating an error. -/
theorem detect_fails_only_unreadable_root (cands : List FrameworkCandidate)
    (s : DirSnapshot) (pe : Bool) :
    (isOkResult (detect cands s) = true ↔ s.rootReadable = true) ∧
    ((s.manifest = ManifestOutcome.missing ∨ s.manifest = ManifestOutcome.malformed) →
      (scanEvidence s).manifestFields = []) ∧
    readPackageJson false (Except.ok (PackageJson.mk [] [])) = none ∧
    readPackageJson pe (Except.error "malformed json") = none := by
  refine ⟨?_, ?_, rfl, ?_⟩
  · by_cases hr : s.rootReadable = true
    · simp [detect, hr, isOkResult]
    · simp [detect, hr, isOkResult]
  · intro h
    rcases h with h | h <;> simp [scanEvidence, h, manifestFieldsOf]
  · cases pe <;> rfl

/-- Witness for C7: a readable snapshot whose manifest is malformed is
detected successfully with empty manifest fields. -/
theorem detect_fails_only_unreadable_root_witness :
    isOkResult (detect [] (DirSnapshot.mk true [] [] ManifestOutcome.malformed [])) = true ∧
    (scanEvidence (DirSnapshot.mk true [] [] ManifestOutcome.malformed [])).manifestFields
      = [] := by
  refine ⟨?_, ?_⟩
  · exact (detect_fails_only_unreadable_root []
      (DirSnapshot.mk true [] [] ManifestOutcome.malformed []) false).1.mpr rfl
  · exact (detect_fails_only_unreadable_root []
      (DirSnapshot.mk true [] [] ManifestOutcome.malformed []) false).2.1 (Or.inr rfl)

/-- C9: detection is deterministic and evidence collection is side-effect
free and idempotent: the scanner (written as an explicit state-passing
step) returns the snapshot unchanged, a second scan of that returned state
yields an identical bundle, and running `detect` on the threaded state
yields the identical result. -/
theorem detect_deterministic (cands : List FrameworkCandidate) (s : DirSnapshot) :
    (scanEvidenceSt s).fst = s ∧
    (scanEvidenceSt (scanEvidenceSt s).fst).snd = (scanEvidenceSt s).snd ∧
    detect cands (scanEvidenceSt s).fst = detect cands s :=
  ⟨rfl, rfl, rfl⟩

theorem evalPredicate_addFile_mono (b : EvidenceBundle) (f : String) (pats : List String)
    (p : Predicate) (h : evalPredicate b p = true) :
    evalPredicate (addFile b f pats) p = true := by
  cases p with
  | fileExists g =>
    simp only [evalPredicate, addFile, decide_eq_true_eq] at h ⊢
    exact List.mem_cons_of_mem _ h
  | manifestDep k => exact h
  | contentMatch g pid =>
    simp only [evalPredicate, addFile, decide_eq_true_eq] at h ⊢
    exact List.mem_append_right _ h
  | dirExists g => exact h

theorem requiredOk_addFile_mono (b : EvidenceBundle) (f : String) (pats : List String)
    (c : FrameworkCandidate) (h : requiredOk b c = true) :
    requiredOk (addFile b f pats) c = true := by
  apply List.all_eq_true.mpr
  intro r hmem
  have hr := List.all_eq_true.mp h r hmem
  by_cases hreq : r.required = true
  · rw [hreq] at hr ⊢
    simp only [Bool.not_true, Bool.false_or] at hr ⊢
    exact evalPredicate_addFile_mono b f pats r.pred hr
  · rw [Bool.eq_false_iff.mpr hreq]
    rfl

theorem sumWeights_filter_mono (p q : Rule → Bool) (h : ∀ r, p r = true → q r = true) :
    ∀ rs : List Rule, sumWeights (rs.filter p) ≤ sumWeights (rs.filter q)
  | [] => Nat.le_refl 0
  | r :: rs => by
    rw [List.filter_cons, List.filter_cons]
    by_cases hp : p r = true
    · rw [if_pos hp, if_pos (h r hp)]
      simp only [sumWeights, List.map_cons, List.sum_cons]
      exact Nat.add_le_add_left (sumWeights_filter_mono p q h rs) _
    · rw [if_neg hp]
      by_cases hq : q r = true
      · rw [if_pos hq]
        have hle := sumWeights_filter_mono p q h rs
        simp only [sumWeights, List.map_cons, List.sum_cons]
        exact Nat.le_trans hle (Nat.le_add_left _ _)
      · rw [if_neg hq]
        exact sumWeights_filter_mono p q h rs

theorem score_addFile_mono (b : EvidenceBundle) (f : String) (pats : List String)
    (c : FrameworkCandidate) :
    (scoreCandidate b c).score ≤ (scoreCandidate (addFile b f pats) c).score := by
  by_cases hok : requiredOk b c = true
  · have hok2 := requiredOk_addFile_mono b f pats c hok
    rw [scoreCandidate, scoreCandidate, hok, hok2]
    simp only [if_true]
    have hsum : sumWeights (c.rules.filter (fun r => evalPredicate b r.pred)) ≤
        sumWeights (c.rules.filter (fun r => evalPredicate (addFile b f pats) r.pred)) :=
      sumWeights_filter_mono _ _
        (fun r hr => evalPredicate_addFile_mono b f pats r.pred hr) c.rules
    rw [clamp, clamp, Nat.zero_max, Nat.zero_max]
    exact min_le_min hsum (Nat.le_refl 100)
  · have hf : requiredOk b c = false := Bool.eq_false_iff.mpr hok
    simp [scoreCandidate, hf]

theorem list_all_congr {α : Type} (p q : α → Bool) :
    ∀ l : List α, (∀ a ∈ l, p a = q a) → l.all p = l.all q
  | [], _ => rfl
  | x :: xs, h => by
    rw [List.all_cons, List.all_cons, h x (List.mem_cons_self _ _),
        list_all_congr p q xs (fun a ha => h a (List.mem_cons_of_mem _ ha))]

theorem list_filter_congr {α : Type} (p q : α → Bool) :
    ∀ l : List α, (∀ a ∈ l, p a = q a) → l.filter p = l.filter q
  | [], _ => rfl
  | x :: xs, h => by
    rw [List.filter_cons, List.filter_cons, h x (List.mem_cons_self _ _),
        list_filter_congr p q xs (fun a ha => h a (List.mem_cons_of_mem _ ha))]

theorem scoreCandidate_congr (b bb : EvidenceBundle) (c : FrameworkCandidate)
    (h : ∀ r ∈ c.rules, evalPredicate bb r.pred = evalPredicate b r.pred) :
    scoreCandidate bb c = scoreCandidate b c := by
  have hreq : requiredOk bb c = requiredOk b c := by
    rw [requiredOk, requiredOk]
    exact list_all_congr _ _ c.rules (fun r hr => by rw [h r hr])
  have hfilter : c.rules.filter (fun r => evalPredicate bb r.pred) =
      c.rules.filter (fun r => evalPredicate b r.pred) :=
    list_filter_congr _ _ c.rules (fun r hr => by rw [h r hr])
  rw [scoreCandidate, scoreCandidate, hreq, hfilter]

theorem evalPredicate_addFile_indep (b : EvidenceBundle) (f : String) (pats : List String)
    (p : Predicate) (h : fileEvidence f p = false) :
    evalPredicate (addFile b f pats) p = evalPredicate b p := by
  cases p with
  | fileExists g =>
    have hg : g ≠ f := by simpa [fileEvidence] using h
    simp only [evalPredicate, addFile]
    rw [decide_eq_decide]
    simp [List.mem_cons, hg]
  | manifestDep k => rfl
  | contentMatch g pid =>
    have hg : g ≠ f := by simpa [fileEvidence] using h
    simp only [evalPredicate, addFile]
    rw [decide_eq_decide]
    have hnot : (g, pid) ∉ pats.map (fun q => (f, q)) := by
      intro hmem
      obtain ⟨q, _, heq⟩ := List.mem_map.mp hmem
      exact hg (congrArg Prod.fst heq).symm
    simp [List.mem_append, hnot]
  | dirExists g => rfl

/-- C8: adding a matching-evidence file never decreases a framework's score,
and leaves any framework whose rules draw no evidence from that file with a
completely unchanged scoring result. -/
theorem score_monotone_addFile (b : EvidenceBundle) (f : String) (pats : List String)
    (c : FrameworkCandidate) (y : FrameworkCandidate)
    (hy : ∀ r ∈ y.rules, fileEvidence f r.pred = false) :
    (scoreCandidate b c).score ≤ (scoreCandidate (addFile b f pats) c).score ∧
    scoreCandidate (addFile b f pats) y = scoreCandidate b y :=
  ⟨score_addFile_mono b f pats c,
   scoreCandidate_congr b (addFile b f pats) y
     (fun r hr => evalPredicate_addFile_indep b f pats r.pred (hy r hr))⟩

/-- Witness for C8: adding `App.kt` (with a compose content match) raises the
compose candidate's score from 0 to 50 and leaves a react candidate, none of
whose rules mention `App.kt`, entirely unchanged. -/
theorem score_monotone_addFile_witness :
    (∀ r ∈ (FrameworkCandidate.mk "react"
        [Rule.mk (Predicate.fileExists "package.json") 30 false] []).rules,
      fileEvidence "App.kt" r.pred = false) ∧
    (scoreCandidate (EvidenceBundle.mk ["package.json"] [] [] [])
        (FrameworkCandidate.mk "compose-multiplatform"
          [Rule.mk (Predicate.contentMatch "App.kt" "composable-annotation-marker") 50 false]
          [])).score ≤
      (scoreCandidate
        (addFile (EvidenceBundle.mk ["package.json"] [] [] []) "App.kt"
          ["composable-annotation-marker"])
        (FrameworkCandidate.mk "compose-multiplatform"
          [Rule.mk (Predicate.contentMatch "App.kt" "composable-annotation-marker") 50 false]
          [])).score ∧
    scoreCandidate
        (addFile (EvidenceBundle.mk ["package.json"] [] [] []) "App.kt"
          ["composable-annotation-marker"])
        (FrameworkCandidate.mk "react"
          [Rule.mk (Predicate.fileExists "package.json") 30 false] []) =
      scoreCandidate (EvidenceBundle.mk ["package.json"] [] [] [])
        (FrameworkCandidate.mk "react"
          [Rule.mk (Predicate.fileExists "package.json") 30 false] []) := by
  refine ⟨by decide, ?_⟩
  exact score_monotone_addFile (EvidenceBundle.mk ["package.json"] [] [] [])
    "App.kt" ["composable-annotation-marker"]
    (FrameworkCandidate.mk "compose-multiplatform"
      [Rule.mk (Predicate.contentMatch "App.kt" "composable-annotation-marker") 50 false] [])
    (FrameworkCandidate.mk "react"
      [Rule.mk (Predicate.fileExists "package.json") 30 false] [])
    (by decide)

theorem jsSetDedup_foldl_nodup :
    ∀ (l acc : List String), acc.Nodup →
      (l.foldl (fun acc x => if x ∈ acc then acc else acc ++ [x]) acc).Nodup
  | [], _, h => h
  | x :: xs, acc, h => by
    rw [List.foldl_cons]
    by_cases hc : x ∈ acc
    · rw [if_pos hc]
      exact jsSetDedup_foldl_nodup xs acc h
    · rw [if_neg hc]
      apply jsSetDedup_foldl_nodup xs
      rw [List.nodup_append]
      refine ⟨h, List.nodup_singleton x, ?_⟩
      intro a ha hax
      rw [List.mem_singleton.mp hax] at ha
      exact hc ha

theorem jsSetDedup_nodup (l : List String) : (jsSetDedup l).Nodup :=
  jsSetDedup_foldl_nodup l [] List.nodup_nil

/-- C10: the tech-stack and framework lists computed by
`ProjectAnalyzer.analyzeBasic` contain no duplicate entries — both
`detectTechStack` and `detectFrameworks` pass their accumulated entries
through `[...new Set(...)]` before returning, even when the framework
detector and the legacy `package.json` fallback report the same
technology. -/
theorem detectTechStack_detectFrameworks_nodup (files : List String)
    (packageJson : Option PackageJson) (fd : Option FrameworkDetectionResult) :
    (detectTechStack files packageJson fd).Nodup ∧
    (detectFrameworks files packageJson fd).Nodup :=
  ⟨jsSetDedup_nodup _, jsSetDedup_nodup _⟩

/-- Witness for C3: a top score of exactly 50 (the threshold) yields a
present primary, and a top score of exactly 49 yields an absent one. -/
theorem aggregate_primary_iff_threshold_witness :
    ((aggregate [ScoredCandidate.mk "react" 50 []]).primary).isSome = true ∧
    ((aggregate [ScoredCandidate.mk "react" 49 []]).primary).isSome = false := by
  constructor
  · exact (aggregate_primary_iff_threshold [ScoredCandidate.mk "react" 50 []]).mpr (by decide)
  · have h := aggregate_primary_iff_threshold [ScoredCandidate.mk "react" 49 []]
    by_cases hp : ((aggregate [ScoredCandidate.mk "react" 49 []]).primary).isSome = true
    · exact absurd (h.mp hp) (by decide)
    · exact Bool.eq_false_iff.mpr hp
